import Mathlib

/-!
Verification development for the IDSimF space-charge / trajectory-integration
core: a shallow embedding of the field-calculator registry (FMM3D solver
interface), the Barnes-Hut charge-aggregation tree, the parallel velocity-Verlet
integrator, the application-level acceleration / other-actions callbacks, and
the random generator pools, together with theorems settling the specified
properties.

Coordinates and physical scalars are embedded as rationals (`ℚ`); machine
floating point is abstracted to exact arithmetic.  Particle identity (the C++
pointer identity used by the `pMap_` registry) is embedded as a numeric
handle `pid`.
-/

namespace IDSimF

/-- Three-dimensional vector (embeds `Core::Vector`, rational components). -/
structure Vec3 where
  x : ℚ
  y : ℚ
  z : ℚ
deriving DecidableEq, Repr

namespace Vec3

def add (a b : Vec3) : Vec3 := ⟨a.x + b.x, a.y + b.y, a.z + b.z⟩

def smul (c : ℚ) (a : Vec3) : Vec3 := ⟨c * a.x, c * a.y, c * a.z⟩

def zero : Vec3 := ⟨0, 0, 0⟩

instance : Add Vec3 := ⟨add⟩
instance : HSMul ℚ Vec3 Vec3 := ⟨smul⟩
instance : Zero Vec3 := ⟨zero⟩

/-- Sum of a list of vectors. -/
def listSum (l : List Vec3) : Vec3 := l.foldr add zero

end Vec3

/-- Embeds `Core::Particle`: 3D position/velocity, charge, mass, active and
invalid flags.  `pid` embeds the C++ object identity (pointer) of the
externally owned particle. -/
structure Particle where
  pid : Nat
  loc : Vec3
  vel : Vec3
  charge : ℚ
  mass : ℚ
  active : Bool
  invalid : Bool
deriving DecidableEq, Repr

namespace Particle

/-- Embeds `Core::Particle::setInvalid`. -/
def setInvalid (p : Particle) (b : Bool) : Particle := { p with invalid := b }

/-- Embeds `Core::Particle::setActive`. -/
def setActive (p : Particle) (b : Bool) : Particle := { p with active := b }

end Particle

/-- Total charge of a particle list. -/
def totalCharge (ps : List Particle) : ℚ := (ps.map Particle.charge).sum

namespace FMM3D

/-- Registry entry of the FMM solver: a registered particle together with its
cached gradient (electric field) and potential, embedding
`FMM3D::particleListEntry` (`particle`, `gradient`, `potential`). -/
structure ParticleListEntry where
  extIndex : Nat
  particle : Particle
  gradient : Vec3
  potential : ℚ
deriving DecidableEq, Repr

/-- A space-charge interaction kernel: contribution of a source particle to the
field at a target location.  Abstracts the Coulomb monopole kernel evaluated by
the external FMM3D library (whose numeric kernel involves irrational
constants); the registry / self-exclusion properties hold for every kernel. -/
def Kernel : Type := Particle → Vec3 → Vec3

/-- Modelled from the spec: the bodies of `FMM3D::FMMSolver` (insertParticle,
removeParticle, getNumberOfParticles, computeChargeDistribution,
getEFieldFromSpaceCharge) are absent from the sources (only the class
declaration in FMM3D_fmmSolver.hpp is present).  Following §4.1 of the spec,
the solver keeps a registry of particles keyed by an external index (`iMap_`)
and by particle identity (`pMap_`), stored in a linear list (`iVec_`). -/
structure FMMSolver where
  reg : List ParticleListEntry
deriving DecidableEq, Repr

/-- Modelled from the spec: `insertParticle(particle, ext_index)` registers a
particle; it fails (precondition violation) if `ext_index` is already
registered. -/
def insertParticle (s : FMMSolver) (p : Particle) (extIndex : Nat) :
    Except String FMMSolver :=
  if (s.reg.filter (fun e => e.extIndex = extIndex)).isEmpty then
    Except.ok ⟨⟨extIndex, p, 0, 0⟩ :: s.reg⟩
  else
    Except.error "particle index already existing in particle index map"

/-- Modelled from the spec: `removeParticle(ext_index)` deregisters a particle;
removal of an index that is not currently registered fails loudly with a
lookup-miss error, never silently succeeds. -/
def removeParticle (s : FMMSolver) (extIndex : Nat) :
    Except String FMMSolver :=
  if (s.reg.filter (fun e => e.extIndex = extIndex)).isEmpty then
    Except.error "particle index not found in particle index map"
  else
    Except.ok ⟨s.reg.eraseP (fun e => e.extIndex = extIndex)⟩

/-- Modelled from the spec: `getNumberOfParticles()` returns the current
registered count. -/
def getNumberOfParticles (s : FMMSolver) : Nat := s.reg.length

/-- Whether an external index is currently registered. -/
def indexRegistered (s : FMMSolver) (extIndex : Nat) : Bool :=
  !(s.reg.filter (fun e => e.extIndex = extIndex)).isEmpty

/-- Registry well-formedness: external indices are pairwise distinct (the
`iMap_` unordered map has one entry per registered index). -/
def wellFormed (s : FMMSolver) : Prop :=
  s.reg.Pairwise (fun a b => a.extIndex ≠ b.extIndex)

/-- Field of a list of source entries at a target location, for a kernel. -/
def fieldOfEntries (K : Kernel) (entries : List ParticleListEntry)
    (target : Vec3) : Vec3 :=
  Vec3.listSum (entries.map (fun e => K e.particle target))

/-- Modelled from the spec: `computeChargeDistribution()` recomputes the cached
field values from the current particle positions/charges; the cached gradient
of each registered particle is the field due to all *other* registered
particles — self-interaction is excluded by particle identity, even for
coincident particles. -/
def computeChargeDistribution (K : Kernel) (s : FMMSolver) : FMMSolver :=
  ⟨s.reg.map (fun e =>
    { e with
      gradient :=
        Vec3.listSum (s.reg.map (fun e' =>
          if e'.particle.pid = e.particle.pid then 0
          else K e'.particle e.particle.loc)) })⟩

/-- Modelled from the spec: `getEFieldFromSpaceCharge(particle)` looks the
particle up in the registry (via `pMap_`, particle identity) and returns its
cached gradient. -/
def getEFieldFromSpaceCharge (s : FMMSolver) (p : Particle) : Vec3 :=
  match s.reg.find? (fun e => e.particle.pid = p.pid) with
  | some e => e.gradient
  | none => 0

end FMM3D

namespace BTree

/-- Axis-aligned rectangular region of space (bounds of a tree node). -/
structure Bounds where
  lo : Vec3
  hi : Vec3
deriving DecidableEq, Repr

/-- Geometric center of a region. -/
def Bounds.center (b : Bounds) : Vec3 :=
  ⟨(b.lo.x + b.hi.x) / 2, (b.lo.y + b.hi.y) / 2, (b.lo.z + b.hi.z) / 2⟩

/-- Octant (0..7) of a location relative to a center point: one bit per axis. -/
def octantIndex (c v : Vec3) : Nat :=
  (if c.x ≤ v.x then 1 else 0) + (if c.y ≤ v.y then 2 else 0) +
    (if c.z ≤ v.z then 4 else 0)

/-- Sub-region of a region for a given octant. -/
def subBounds (b : Bounds) (k : Nat) : Bounds :=
  let c := b.center
  ⟨⟨if k % 2 = 1 then c.x else b.lo.x,
    if k / 2 % 2 = 1 then c.y else b.lo.y,
    if k / 4 % 2 = 1 then c.z else b.lo.z⟩,
   ⟨if k % 2 = 1 then b.hi.x else c.x,
    if k / 2 % 2 = 1 then b.hi.y else c.y,
    if k / 4 % 2 = 1 then b.hi.z else c.z⟩⟩

/-- Modelled from the spec: the Barnes-Hut tree implementation
(`BTree::ParallelTree`) is absent from the sources.  Following §4.2 of the
spec, a node is either a leaf holding the contained particles or an internal
node with eight octant children. -/
inductive BHTree where
  | leaf (ps : List Particle)
  | node (c0 c1 c2 c3 c4 c5 c6 c7 : BHTree)
deriving DecidableEq, Repr

/-- All particles contained in a (sub)tree. -/
def BHTree.particles : BHTree → List Particle
  | .leaf ps => ps
  | .node c0 c1 c2 c3 c4 c5 c6 c7 =>
      c0.particles ++ c1.particles ++ c2.particles ++ c3.particles ++
        c4.particles ++ c5.particles ++ c6.particles ++ c7.particles

/-- Modelled from the spec: recursive spatial partition — the region is
subdivided into eight octants whenever a cell would otherwise contain more
than one particle; subdivision depth is bounded by `fuel` (so coincident
particles end in a shared bucket leaf instead of recursing forever). -/
def buildTree : Nat → Bounds → List Particle → BHTree
  | _, _, [] => .leaf []
  | _, _, [p] => .leaf [p]
  | 0, _, ps => .leaf ps
  | fuel + 1, b, ps =>
      let c := b.center
      .node
        (buildTree fuel (subBounds b 0) (ps.filter (fun p => octantIndex c p.loc = 0)))
        (buildTree fuel (subBounds b 1) (ps.filter (fun p => octantIndex c p.loc = 1)))
        (buildTree fuel (subBounds b 2) (ps.filter (fun p => octantIndex c p.loc = 2)))
        (buildTree fuel (subBounds b 3) (ps.filter (fun p => octantIndex c p.loc = 3)))
        (buildTree fuel (subBounds b 4) (ps.filter (fun p => octantIndex c p.loc = 4)))
        (buildTree fuel (subBounds b 5) (ps.filter (fun p => octantIndex c p.loc = 5)))
        (buildTree fuel (subBounds b 6) (ps.filter (fun p => octantIndex c p.loc = 6)))
        (buildTree fuel (subBounds b 7) (ps.filter (fun p => octantIndex c p.loc = 7)))

/-- Aggregate data of a tree node: aggregated charge and charge centroid. -/
structure AggData where
  charge : ℚ
  centroid : Vec3
deriving DecidableEq, Repr

/-- Charge-weighted center of charge of a particle list (centroid). -/
def chargeCentroid (ps : List Particle) : Vec3 :=
  (1 / totalCharge ps) • Vec3.listSum (ps.map (fun p => p.charge • p.loc))

/-- A tree annotated with aggregate data at every node. -/
inductive ATree where
  | leaf (agg : AggData) (ps : List Particle)
  | node (agg : AggData) (c0 c1 c2 c3 c4 c5 c6 c7 : ATree)
deriving DecidableEq, Repr

/-- Aggregate data stored at the root of an annotated (sub)tree. -/
def ATree.agg : ATree → AggData
  | .leaf a _ => a
  | .node a _ _ _ _ _ _ _ _ => a

/-- Modelled from the spec: `computeChargeDistribution()` recomputes all
aggregate charge/centroid values bottom-up; each internal node's aggregate
charge is the sum of its children's aggregate charges and its centroid is the
charge-weighted average of the children's centroids. -/
def computeChargeDistribution : BHTree → ATree
  | .leaf ps => .leaf ⟨totalCharge ps, chargeCentroid ps⟩ ps
  | .node c0 c1 c2 c3 c4 c5 c6 c7 =>
      let a0 := computeChargeDistribution c0
      let a1 := computeChargeDistribution c1
      let a2 := computeChargeDistribution c2
      let a3 := computeChargeDistribution c3
      let a4 := computeChargeDistribution c4
      let a5 := computeChargeDistribution c5
      let a6 := computeChargeDistribution c6
      let a7 := computeChargeDistribution c7
      let q := a0.agg.charge + a1.agg.charge + a2.agg.charge + a3.agg.charge +
        a4.agg.charge + a5.agg.charge + a6.agg.charge + a7.agg.charge
      .node
        ⟨q, (1 / q) • (a0.agg.charge • a0.agg.centroid +
          a1.agg.charge • a1.agg.centroid + a2.agg.charge • a2.agg.centroid +
          a3.agg.charge • a3.agg.centroid + a4.agg.charge • a4.agg.centroid +
          a5.agg.charge • a5.agg.centroid + a6.agg.charge • a6.agg.centroid +
          a7.agg.charge • a7.agg.centroid)⟩
        a0 a1 a2 a3 a4 a5 a6 a7

/-- Bottom-up aggregate consistency: every internal node's aggregate charge is
the sum of its children's aggregate charges and its centroid the
charge-weighted average of the children's centroids. -/
def ATree.consistent : ATree → Prop
  | .leaf _ _ => True
  | .node a c0 c1 c2 c3 c4 c5 c6 c7 =>
      (a.charge = c0.agg.charge + c1.agg.charge + c2.agg.charge +
        c3.agg.charge + c4.agg.charge + c5.agg.charge + c6.agg.charge +
        c7.agg.charge) ∧
      (a.centroid = (1 / a.charge) • (c0.agg.charge • c0.agg.centroid +
        c1.agg.charge • c1.agg.centroid + c2.agg.charge • c2.agg.centroid +
        c3.agg.charge • c3.agg.centroid + c4.agg.charge • c4.agg.centroid +
        c5.agg.charge • c5.agg.centroid + c6.agg.charge • c6.agg.centroid +
        c7.agg.charge • c7.agg.centroid)) ∧
      c0.consistent ∧ c1.consistent ∧ c2.consistent ∧ c3.consistent ∧
        c4.consistent ∧ c5.consistent ∧ c6.consistent ∧ c7.consistent

end BTree

namespace Integration

/-- Acceleration function contract (§6): `(particle, index, time, timestepIndex)
→ accelerationVector`; the field-calculator argument is captured inside. -/
def AccelerationFct : Type := Particle → Nat → ℚ → Nat → Vec3

/-- Other-actions hook contract (§6): `(candidateNewPosition, particle, index,
time, timestepIndex)`; may mutate the candidate position and the particle
(deactivate / flag). -/
def OtherActionsFct : Type := Vec3 → Particle → Nat → ℚ → Nat → Vec3 × Particle

/-- Run lifecycle states of the integrator (§4.3):
`IDLE → RUNNING → (IN_TERMINATION) → TERMINATED`. -/
inductive RunState where
  | IDLE
  | RUNNING
  | IN_TERMINATION
  | TERMINATED
deriving DecidableEq, Repr

/-- Modelled from the spec: the implementation of
`Integration::ParallelVerletIntegrator` / `AbstractTimeIntegrator` (run loop,
lifecycle state machine) is absent from the sources (only the class
declaration is present).  The state carries the particles, the simulation
clock, the lifecycle state, the asynchronous termination-request flag, and
instrumentation counters for finalize invocations and termination-flag
polls. -/
structure IntState where
  particles : List Particle
  time : ℚ
  timestep : Nat
  runState : RunState
  terminationRequested : Bool
  finalizeCount : Nat
  pollCount : Nat
deriving Repr

/-- Modelled from the spec (§4.3 steps 2–6): velocity-Verlet update of a single
particle.  `a(t)` is evaluated at the old position; the tentative new position
is `x + v*dt + a(t)*dt²/2`; the other-actions hook may mutate the new position
or the particle; `a(t+dt)` is re-evaluated at the (possibly hook-modified) new
position; the new velocity is `v + (a(t)+a(t+dt))*dt/2`.  Inactive particles
are skipped. -/
def stepParticle (accel : AccelerationFct) (other : OtherActionsFct)
    (t : ℚ) (ts : Nat) (dt : ℚ) (i : Nat) (p : Particle) : Particle :=
  if p.active then
    let aT := accel p i t ts
    let tentative := p.loc + dt • p.vel + ((dt * dt) / 2) • aT
    let hooked := other tentative p i t ts
    let p1 : Particle := { hooked.2 with loc := hooked.1 }
    let aTdt := accel p1 i (t + dt) ts
    { p1 with vel := p.vel + (dt / 2) • (aT + aTdt) }
  else p

/-- Modelled from the spec: `runSingleStep(dt)` performs one whole velocity-
Verlet step on all particles and advances the clock; it is not honored once
the integrator is `TERMINATED`. -/
def runSingleStep (accel : AccelerationFct) (other : OtherActionsFct)
    (dt : ℚ) (s : IntState) : IntState :=
  if s.runState = RunState.TERMINATED then s
  else
    { s with
      particles := s.particles.mapIdx
        (stepParticle accel other s.time s.timestep dt)
      time := s.time + dt
      timestep := s.timestep + 1
      runState := if s.runState = RunState.IDLE then RunState.RUNNING
        else s.runState }

/-- All-particles-inactive condition, embedded from the application's
`timestepWriteFunction` (quadrupoleCollisionCellSim.cpp): termination is
requested when `ionsInactive >= particles.size()` and the particle set is
nonempty. -/
def allInactive (ps : List Particle) : Bool :=
  ps.all (fun p => !p.active) && !ps.isEmpty

/-- Modelled from the spec (§5 Cancellation): the termination flag is polled
exactly once per timestep, after the step has completed; `sig k` tells whether
an external signal arrived during step `k` (the step that just completed).
If termination was requested the lifecycle enters `IN_TERMINATION`. -/
def pollTermination (sig : Nat → Bool) (k : Nat) (s : IntState) : IntState :=
  let s' := { s with pollCount := s.pollCount + 1 }
  if sig k || allInactive s.particles || s.terminationRequested then
    { s' with runState := RunState.IN_TERMINATION,
              terminationRequested := true }
  else s'

/-- Modelled from the spec: the finalize hook transitions the integrator to
`TERMINATED`; `finalizeCount` instruments how often it was invoked. -/
def finalizeSimulation (s : IntState) : IntState :=
  { s with runState := RunState.TERMINATED,
           finalizeCount := s.finalizeCount + 1 }

/-- Modelled from the spec: the stepping loop of `run(nTimesteps, dt)` — after
each completed step the termination flag is polled once; the loop exits early
when termination was requested. -/
def runLoop (accel : AccelerationFct) (other : OtherActionsFct)
    (sig : Nat → Bool) (dt : ℚ) : Nat → IntState → IntState
  | 0, s => s
  | n + 1, s =>
      let s1 := pollTermination sig s.timestep (runSingleStep accel other dt s)
      if s1.runState = RunState.IN_TERMINATION then s1
      else runLoop accel other sig dt n s1

/-- Modelled from the spec: `run(nTimesteps, dt)` repeats single steps,
exiting early on a termination request, then invokes the finalize hook exactly
once. -/
def run (accel : AccelerationFct) (other : OtherActionsFct)
    (sig : Nat → Bool) (n : Nat) (dt : ℚ) (s : IntState) : IntState :=
  finalizeSimulation (runLoop accel other sig dt n s)

/-- Timestep-write hook contract (§6):
`(particles, time, timestepIndex, isLast) → void`. -/
def TimestepWriteFct : Type := List Particle → ℚ → Nat → Bool → Unit

/-- Particle-start-monitoring hook contract (§6): `(particle, time) → void`. -/
def ParticleStartMonitoringFct : Type := Particle → ℚ → Unit

/-- Collision model contract (§6): perturbs a particle's velocity/position for
a timestep. -/
def CollisionModel : Type := Particle → ℚ → Particle

/-- The constructed integrator object, embedding the member variables declared
in BTree_parallelVerletIntegrator.hpp: the callbacks, the optional collision
model, the simulation-domain corners `loc_min_` / `loc_max_`, and the bounds
the space-charge tree `tree_` is built over. -/
structure ParallelVerletIntegrator where
  particles : List Particle
  accelerationFunction : AccelerationFct
  timestepWriteFunction : TimestepWriteFct
  otherActionsFunction : OtherActionsFct
  ionStartMonitoringFunction : ParticleStartMonitoringFct
  collisionModel : Option CollisionModel
  locMin : Vec3
  locMax : Vec3
  treeBounds : BTree.Bounds

/-- Embeds the first `ParallelVerletIntegrator` constructor (declared
parameters: particle set, acceleration function, timestep-write function,
other-actions function, ion-start-monitoring function, collision model) with
the default member initializers of the header: the domain corners are the
hard-coded vectors `(-1000,-1000,-1000)` and `(1000,1000,1000)` and `tree_`
is constructed over exactly those corners; no constructor parameter feeds
them. -/
def mkParallelVerletIntegrator (particles : List Particle)
    (accelerationFunction : AccelerationFct)
    (timestepWriteFunction : TimestepWriteFct)
    (otherActionsFunction : OtherActionsFct)
    (ionStartMonitoringFunction : ParticleStartMonitoringFct)
    (collisionModel : Option CollisionModel) : ParallelVerletIntegrator :=
  { particles := particles
    accelerationFunction := accelerationFunction
    timestepWriteFunction := timestepWriteFunction
    otherActionsFunction := otherActionsFunction
    ionStartMonitoringFunction := ionStartMonitoringFunction
    collisionModel := collisionModel
    locMin := ⟨-1000, -1000, -1000⟩
    locMax := ⟨1000, 1000, 1000⟩
    treeBounds := ⟨⟨-1000, -1000, -1000⟩, ⟨1000, 1000, 1000⟩⟩ }

/-- Embeds the second `ParallelVerletIntegrator` constructor (no particle set;
particles added dynamically later). -/
def mkParallelVerletIntegratorEmpty (accelerationFunction : AccelerationFct)
    (timestepWriteFunction : TimestepWriteFct)
    (otherActionsFunction : OtherActionsFct)
    (ionStartMonitoringFunction : ParticleStartMonitoringFct)
    (collisionModel : Option CollisionModel) : ParallelVerletIntegrator :=
  mkParallelVerletIntegrator [] accelerationFunction timestepWriteFunction
    otherActionsFunction ionStartMonitoringFunction collisionModel

end Integration

namespace QuadSim

/-- Embeds the acceleration lambda of BT-generalQuadSim.cpp: the interpolated
field lookups (`getInterpolatedVector`) throw `std::invalid_argument` when the
particle is outside the fields' valid domain (embedded as `Except.error`); the
lambda catches the exception, flags the particle invalid and returns the
harmless zero acceleration instead of propagating the failure.  The scalar
factor `cosVrf` embeds `cos(omega_rf*time)*V_rf` (irrational trigonometry
abstracted to its exact value) and `scField` the space-charge field returned
by `tree.computeEFieldFromTree`. -/
def accelerationFunction (eFieldRF eFieldEntrance : Vec3 → Except String Vec3)
    (cosVrf vEntrance spaceChargeFactor : ℚ)
    (scField : Vec3) (p : Particle) : Vec3 × Particle :=
  match eFieldRF p.loc, eFieldEntrance p.loc with
  | Except.ok eRF, Except.ok eEntrance =>
      let e := cosVrf • eRF + vEntrance • eEntrance
      let spaceChargeForce := spaceChargeFactor • scField
      ((p.charge / p.mass) • (e + spaceChargeForce), p)
  | _, _ => (0, p.setInvalid true)

/-- Embeds the other-actions lambda of BT-generalQuadSim.cpp: compute the
squared radial position of the candidate position (the source compares
`sqrt(y²+z²) > maxRadius`, embedded as the equivalent square comparison for a
nonnegative radius), zero the z coordinate past the quad length, and restart
any particle that left the domain or was flagged invalid at a start-zone
position (`restartPos` embeds `startZone.getRandomParticlePosition()`),
clearing the invalid flag. -/
def otherActionsFunction (maxQLength maxRadiusSq : ℚ) (restartPos : Vec3)
    (newPartPos : Vec3) (p : Particle) : Vec3 × Particle :=
  let rPosSq := newPartPos.y * newPartPos.y + newPartPos.z * newPartPos.z
  let pos1 := if maxQLength < newPartPos.x then { newPartPos with z := 0 }
    else newPartPos
  if maxRadiusSq < rPosSq || maxQLength < newPartPos.x || p.invalid then
    (restartPos, p.setInvalid false)
  else
    (pos1, p)

end QuadSim

namespace Core

/-- One engine of the productive random generator pool
(`Core::RandomGeneratorPool::RNGPoolElement`): a distinct Mersenne-twister
engine per element; `engineId` embeds the identity of the heap-allocated
engine object (its creation index). -/
structure RNGPoolElement where
  engineId : Nat
deriving DecidableEq, Repr

/-- The productive random generator pool (`Core::RandomGeneratorPool`). -/
structure RandomGeneratorPool where
  elements : List RNGPoolElement
deriving DecidableEq, Repr

/-- Embeds the `Core::RandomGeneratorPool` constructor: one engine is
constructed per available worker thread, `omp_get_max_threads()` many
(embedded as the parameter `nMaxThreads`). -/
def mkRandomGeneratorPool (nMaxThreads : Nat) : RandomGeneratorPool :=
  ⟨(List.range nMaxThreads).map (fun i => ⟨i⟩)⟩

/-- Embeds `Core::RandomGeneratorPool::getThreadRandomSource`: returns
`elements_[omp_get_thread_num()]`, the engine indexed by the calling thread's
identity at call time (embedded as the parameter `ompThreadNum`; `none` embeds
the out-of-range access that the unchecked C++ subscript must not reach). -/
def getThreadRandomSource (pool : RandomGeneratorPool) (ompThreadNum : Nat) :
    Option RNGPoolElement :=
  pool.elements[ompThreadNum]?

/-- Embeds `Core::TestBitSource`: a deterministic bit source holding only a
cyclic sample index into a fixed list of predefined bit patterns. -/
structure TestBitSource where
  sampleIndex : Nat
deriving DecidableEq, Repr

/-- Embeds `Core::TestBitSource::operator()` over the predefined bit list
`Core::UNIFORM_RANDOM_BITS` (whose defining header is not among the sources;
its contents are abstracted as the parameter `bits`): the sample index
advances cyclically and the value at the new index is returned. -/
def TestBitSource.next (bits : List Nat) (s : TestBitSource) :
    Nat × TestBitSource :=
  let idx := (s.sampleIndex + 1) % bits.length
  (bits.getD idx 0, ⟨idx⟩)

/-- Embeds `Core::TestRandomGeneratorPool`: the deterministic test pool holds
a single element (`element_`). -/
structure TestRandomGeneratorPool where
  element : TestBitSource
deriving DecidableEq, Repr

/-- Embeds `Core::TestRandomGeneratorPool::getThreadRandomSource`: returns
`&element_` — the same single element for every calling thread. -/
def TestRandomGeneratorPool.getThreadRandomSource
    (pool : TestRandomGeneratorPool) (_ompThreadNum : Nat) : TestBitSource :=
  pool.element

/-- Embeds `Core::TestRandomGeneratorPool::getRandomSource`: returns
`&element_` — the same single element for every index. -/
def TestRandomGeneratorPool.getRandomSource
    (pool : TestRandomGeneratorPool) (_index : Nat) : TestBitSource :=
  pool.element

/-- A sequence of randomness requests against the test pool: each request
comes from some thread (`tids` lists the requesting threads' ids); each call
draws from the source returned by `getThreadRandomSource` for that thread and
writes the advanced source back (the C++ mutates the pooled element through
the returned pointer).  Returns the generated values and the final pool. -/
def testPoolRun (bits : List Nat) :
    TestRandomGeneratorPool → List Nat → List Nat × TestRandomGeneratorPool
  | pool, [] => ([], pool)
  | pool, tid :: tids =>
      let src := pool.getThreadRandomSource tid
      let next := src.next bits
      let rest := testPoolRun bits ⟨next.2⟩ tids
      (next.1 :: rest.1, rest.2)

end Core

namespace Samples

/-- Sample particle (used to instantiate witnesses). -/
def p1 : Particle := ⟨1, 0, 0, 1, 1, true, false⟩

/-- A second sample particle, coincident with `p1` but a distinct object. -/
def p2 : Particle := ⟨2, 0, 0, 1, 1, true, false⟩

/-- A sample particle flagged invalid. -/
def pInvalid : Particle := ⟨3, 0, 0, 1, 1, true, true⟩

/-- Sample registry entry for `p1`. -/
def entry1 : FMM3D.ParticleListEntry := ⟨0, p1, 0, 0⟩

/-- Sample registry entry for `p2`. -/
def entry2 : FMM3D.ParticleListEntry := ⟨1, p2, 0, 0⟩

/-- Sample solver with two registered coincident particles. -/
def solver : FMM3D.FMMSolver := ⟨[entry1, entry2]⟩

/-- Sample interaction kernel. -/
def kernel : FMM3D.Kernel := fun q v => q.charge • (v + q.loc)

/-- Sample acceleration function (depends on the particle position). -/
def accel : Integration.AccelerationFct := fun p _ _ _ => p.loc

/-- Sample other-actions hook that shifts the candidate position. -/
def hook : Integration.OtherActionsFct := fun pos p _ _ _ => (pos + ⟨1, 0, 0⟩, p)

/-- Sample integrator state holding one active particle. -/
def state0 : Integration.IntState :=
  ⟨[p1], 0, 0, Integration.RunState.RUNNING, false, 0, 0⟩

end Samples

/-! ## Supporting theorems -/

namespace Vec3

theorem add_def (a b : Vec3) : a + b = ⟨a.x + b.x, a.y + b.y, a.z + b.z⟩ := rfl

theorem smul_def (c : ℚ) (a : Vec3) : c • a = ⟨c * a.x, c * a.y, c * a.z⟩ := rfl

theorem zero_def : (0 : Vec3) = ⟨0, 0, 0⟩ := rfl

theorem listSum_nil : listSum [] = 0 := rfl

theorem listSum_cons (v : Vec3) (l : List Vec3) :
    listSum (v :: l) = v + listSum l := rfl

theorem zero_add (v : Vec3) : (0 : Vec3) + v = v := by
  cases v with
  | mk x y z => simp [add_def, zero_def]

end Vec3

theorem totalCharge_nil : totalCharge [] = 0 := rfl

theorem totalCharge_cons (p : Particle) (ps : List Particle) :
    totalCharge (p :: ps) = p.charge + totalCharge ps := rfl

theorem totalCharge_append (xs ys : List Particle) :
    totalCharge (xs ++ ys) = totalCharge xs + totalCharge ys := by
  simp [totalCharge]

namespace FMM3D

/-- Summing contributions with the self term zeroed out equals the field of
the filtered source list (all sources of a different identity). -/
theorem listSum_selfzero_eq_filter (K : Kernel) (l : List ParticleListEntry)
    (pid : Nat) (target : Vec3) :
    Vec3.listSum (l.map (fun e => if e.particle.pid = pid then 0
        else K e.particle target)) =
      fieldOfEntries K (l.filter (fun e => e.particle.pid ≠ pid)) target := by
  induction l with
  | nil => rfl
  | cons a l ih =>
      by_cases h : a.particle.pid = pid
      · simp only [List.map_cons, Vec3.listSum_cons, if_pos h, fieldOfEntries,
          List.filter_cons] at ih ⊢
        rw [Vec3.zero_add, ih]
        simp [h]
      · simp only [List.map_cons, Vec3.listSum_cons, if_neg h, fieldOfEntries,
          List.filter_cons] at ih ⊢
        rw [ih]
        simp [h, Vec3.listSum_cons]

/-- C1: For every particle `P` registered with the field calculator,
`getEFieldFromSpaceCharge(P)` (after the charge-distribution pass) returns the
field at `P`'s location due to all *other* registered particles only — the
contribution of `P` itself is never included, even for coincident or very
close particle pairs, for every interaction kernel. -/
theorem getEField_excludes_self_interaction (K : Kernel) (s : FMMSolver)
    (P : Particle) (e0 : ParticleListEntry)
    (hfind : s.reg.find? (fun e => e.particle.pid = P.pid) = some e0)
    (hpart : e0.particle = P) :
    getEFieldFromSpaceCharge (computeChargeDistribution K s) P =
      fieldOfEntries K (s.reg.filter (fun e => e.particle.pid ≠ P.pid))
        P.loc := by
  unfold getEFieldFromSpaceCharge computeChargeDistribution
  rw [List.find?_map]
  have hpred : ((fun e : ParticleListEntry => decide (e.particle.pid = P.pid)) ∘
      (fun e : ParticleListEntry =>
        { e with gradient := Vec3.listSum (s.reg.map (fun e' =>
            if e'.particle.pid = e.particle.pid then 0
            else K e'.particle e.particle.loc)) })) =
      (fun e : ParticleListEntry => decide (e.particle.pid = P.pid)) := rfl
  rw [hpred, hfind]
  show Vec3.listSum (s.reg.map (fun e' =>
      if e'.particle.pid = e0.particle.pid then 0
      else K e'.particle e0.particle.loc)) = _
  rw [listSum_selfzero_eq_filter K s.reg e0.particle.pid e0.particle.loc,
    hpart]

/-- Witness for C1 at a concrete registry of two coincident particles. -/
theorem getEField_excludes_self_interaction_witness :
    Samples.solver.reg.find?
        (fun e => e.particle.pid = Samples.p1.pid) = some Samples.entry1 ∧
    Samples.entry1.particle = Samples.p1 ∧
    getEFieldFromSpaceCharge
        (computeChargeDistribution Samples.kernel Samples.solver)
        Samples.p1 =
      fieldOfEntries Samples.kernel
        (Samples.solver.reg.filter
          (fun e => e.particle.pid ≠ Samples.p1.pid)) Samples.p1.loc :=
  ⟨by decide, rfl,
    getEField_excludes_self_interaction Samples.kernel Samples.solver
      Samples.p1 Samples.entry1 (by decide) rfl⟩

/-- After erasing the (unique) entry with a given index from a well-formed
registry, no entry with that index remains. -/
theorem filter_eraseP_eq_nil (l : List ParticleListEntry) (i : Nat)
    (hwf : l.Pairwise (fun a b => a.extIndex ≠ b.extIndex)) :
    (l.eraseP (fun e => e.extIndex = i)).filter (fun e => e.extIndex = i) =
      [] := by
  induction l with
  | nil => rfl
  | cons a l ih =>
      rcases List.pairwise_cons.mp hwf with ⟨ha, hl⟩
      by_cases h : a.extIndex = i
      · rw [List.eraseP_cons_of_pos (by simp [h])]
        rw [List.filter_eq_nil_iff]
        intro e he
        simp only [decide_eq_true_eq]
        intro hei
        exact ha e he (h.trans hei.symm)
      · rw [List.eraseP_cons_of_neg (by simp [h])]
        rw [List.filter_cons_of_neg (by simp [h])]
        exact ih hl

/-- C3: Registry contract violations fail loudly: inserting an already
registered external index fails, removing an unregistered external index
fails with a lookup-miss error, and a second removal of the same index (from
a well-formed registry) fails with the lookup-miss error rather than silently
succeeding. -/
theorem registry_violations_fail_loudly (s : FMMSolver) (p : Particle)
    (i : Nat) (hwf : wellFormed s) :
    (indexRegistered s i = true →
      insertParticle s p i =
        Except.error "particle index already existing in particle index map") ∧
    (indexRegistered s i = false →
      removeParticle s i =
        Except.error "particle index not found in particle index map") ∧
    (∀ s', removeParticle s i = Except.ok s' →
      removeParticle s' i =
        Except.error "particle index not found in particle index map") := by
  refine ⟨?_, ?_, ?_⟩
  · intro h
    unfold indexRegistered at h
    unfold insertParticle
    rw [if_neg]
    simpa using h
  · intro h
    unfold indexRegistered at h
    unfold removeParticle
    rw [if_pos]
    simpa using h
  · intro s' h
    unfold removeParticle at h
    by_cases hempty :
        (s.reg.filter (fun e => e.extIndex = i)).isEmpty = true
    · rw [if_pos hempty] at h
      exact absurd h (by simp)
    · rw [if_neg hempty] at h
      have hs' : s' = ⟨s.reg.eraseP (fun e => e.extIndex = i)⟩ :=
        (Except.ok.inj h).symm
      unfold removeParticle
      rw [if_pos]
      rw [hs']
      simp [filter_eraseP_eq_nil s.reg i hwf]

/-- Witness for C3 at the concrete sample registry and its registered index
`0`. -/
theorem registry_violations_fail_loudly_witness :
    wellFormed Samples.solver ∧
    ((indexRegistered Samples.solver 0 = true →
      insertParticle Samples.solver Samples.p1 0 =
        Except.error "particle index already existing in particle index map") ∧
    (indexRegistered Samples.solver 0 = false →
      removeParticle Samples.solver 0 =
        Except.error "particle index not found in particle index map") ∧
    (∀ s', removeParticle Samples.solver 0 = Except.ok s' →
      removeParticle s' 0 =
        Except.error "particle index not found in particle index map")) :=
  ⟨by unfold wellFormed; decide,
    registry_violations_fail_loudly Samples.solver Samples.p1 0
      (by unfold wellFormed; decide)⟩

/-- C6: Inserting a previously unregistered particle and then removing it
restores the registry exactly: `getNumberOfParticles` returns to its prior
value and every force query (after re-aggregation, for every kernel and every
particle) is unchanged — no residual influence. -/
theorem insert_remove_no_residual_influence (K : Kernel) (s : FMMSolver)
    (p : Particle) (i : Nat) (hnew : indexRegistered s i = false) :
    ∃ s1 s2, insertParticle s p i = Except.ok s1 ∧
      removeParticle s1 i = Except.ok s2 ∧
      getNumberOfParticles s2 = getNumberOfParticles s ∧
      ∀ Q : Particle,
        getEFieldFromSpaceCharge (computeChargeDistribution K s2) Q =
          getEFieldFromSpaceCharge (computeChargeDistribution K s) Q := by
  unfold indexRegistered at hnew
  have hempty : (s.reg.filter (fun e => e.extIndex = i)).isEmpty = true := by
    simpa using hnew
  refine ⟨⟨⟨i, p, 0, 0⟩ :: s.reg⟩, s, ?_, ?_, rfl, fun Q => rfl⟩
  · unfold insertParticle
    rw [if_pos hempty]
  · unfold removeParticle
    rw [if_neg (by simp)]
    have herase :
        (((⟨i, p, 0, 0⟩ : ParticleListEntry) :: s.reg).eraseP
          (fun e => e.extIndex = i)) = s.reg :=
      List.eraseP_cons_of_pos (by simp)
    rw [herase]

/-- Witness for C6 at the concrete sample registry, a fresh index `5` and a
fresh particle. -/
theorem insert_remove_no_residual_influence_witness :
    indexRegistered Samples.solver 5 = false ∧
    ∃ s1 s2, insertParticle Samples.solver Samples.pInvalid 5 =
        Except.ok s1 ∧
      removeParticle s1 5 = Except.ok s2 ∧
      getNumberOfParticles s2 = getNumberOfParticles Samples.solver ∧
      ∀ Q : Particle,
        getEFieldFromSpaceCharge
            (computeChargeDistribution Samples.kernel s2) Q =
          getEFieldFromSpaceCharge
            (computeChargeDistribution Samples.kernel Samples.solver) Q :=
  ⟨by decide,
    insert_remove_no_residual_influence Samples.kernel Samples.solver
      Samples.pInvalid 5 (by decide)⟩

end FMM3D

namespace BTree

theorem octantIndex_lt (c v : Vec3) : octantIndex c v < 8 := by
  unfold octantIndex
  split <;> split <;> split <;> omega

/-- Filtering by the eight octants partitions the total charge. -/
theorem totalCharge_octant_partition (c : Vec3) (ps : List Particle) :
    totalCharge (ps.filter (fun p => octantIndex c p.loc = 0)) +
    totalCharge (ps.filter (fun p => octantIndex c p.loc = 1)) +
    totalCharge (ps.filter (fun p => octantIndex c p.loc = 2)) +
    totalCharge (ps.filter (fun p => octantIndex c p.loc = 3)) +
    totalCharge (ps.filter (fun p => octantIndex c p.loc = 4)) +
    totalCharge (ps.filter (fun p => octantIndex c p.loc = 5)) +
    totalCharge (ps.filter (fun p => octantIndex c p.loc = 6)) +
    totalCharge (ps.filter (fun p => octantIndex c p.loc = 7)) =
      totalCharge ps := by
  induction ps with
  | nil => simp [totalCharge]
  | cons p ps ih =>
      have hk := octantIndex_lt c p.loc
      have hcases : octantIndex c p.loc = 0 ∨ octantIndex c p.loc = 1 ∨
          octantIndex c p.loc = 2 ∨ octantIndex c p.loc = 3 ∨
          octantIndex c p.loc = 4 ∨ octantIndex c p.loc = 5 ∨
          octantIndex c p.loc = 6 ∨ octantIndex c p.loc = 7 := by omega
      rcases hcases with h | h | h | h | h | h | h | h <;>
        simp only [List.filter_cons, h, decide_eq_true_eq] <;>
        norm_num [totalCharge_cons] <;> linarith

/-- The tree built over a particle list contains exactly that total charge. -/
theorem totalCharge_buildTree (fuel : Nat) (b : Bounds) (ps : List Particle) :
    totalCharge (buildTree fuel b ps).particles = totalCharge ps := by
  induction fuel generalizing b ps with
  | zero =>
      match ps with
      | [] => rfl
      | [p] => rfl
      | p :: q :: rest => rfl
  | succ fuel ih =>
      match ps with
      | [] => rfl
      | [p] => rfl
      | p :: q :: rest =>
          rw [buildTree]
          · simp only [BHTree.particles, totalCharge_append, ih]
            exact totalCharge_octant_partition b.center (p :: q :: rest)
          · intro h; simp at h
          · intro p1 h; simp at h

/-- The aggregate charge computed for a (sub)tree is the total charge of the
particles it contains. -/
theorem agg_charge_eq_totalCharge (t : BHTree) :
    (computeChargeDistribution t).agg.charge = totalCharge t.particles := by
  induction t with
  | leaf ps => rfl
  | node c0 c1 c2 c3 c4 c5 c6 c7 ih0 ih1 ih2 ih3 ih4 ih5 ih6 ih7 =>
      have h : (computeChargeDistribution
            (BHTree.node c0 c1 c2 c3 c4 c5 c6 c7)).agg.charge =
          (computeChargeDistribution c0).agg.charge +
          (computeChargeDistribution c1).agg.charge +
          (computeChargeDistribution c2).agg.charge +
          (computeChargeDistribution c3).agg.charge +
          (computeChargeDistribution c4).agg.charge +
          (computeChargeDistribution c5).agg.charge +
          (computeChargeDistribution c6).agg.charge +
          (computeChargeDistribution c7).agg.charge := rfl
      rw [h, ih0, ih1, ih2, ih3, ih4, ih5, ih6, ih7]
      simp only [BHTree.particles, totalCharge_append]

/-- The bottom-up aggregation pass yields a consistent annotated tree. -/
theorem computeChargeDistribution_consistent (t : BHTree) :
    (computeChargeDistribution t).consistent := by
  induction t with
  | leaf ps => trivial
  | node c0 c1 c2 c3 c4 c5 c6 c7 ih0 ih1 ih2 ih3 ih4 ih5 ih6 ih7 =>
      exact ⟨rfl, rfl, ih0, ih1, ih2, ih3, ih4, ih5, ih6, ih7⟩

/-- C2: After the charge-distribution pass over the tree built from any set
of registered particles, the root's aggregate charge equals the sum of all
the particles' charges, and every internal node's aggregate charge is the sum
of its children's aggregate charges with its centroid the charge-weighted
average of the children's centroids. -/
theorem chargeDistribution_conserves_charge (fuel : Nat) (b : Bounds)
    (ps : List Particle) :
    (computeChargeDistribution (buildTree fuel b ps)).agg.charge =
        totalCharge ps ∧
      (computeChargeDistribution (buildTree fuel b ps)).consistent :=
  ⟨(agg_charge_eq_totalCharge (buildTree fuel b ps)).trans
      (totalCharge_buildTree fuel b ps),
    computeChargeDistribution_consistent (buildTree fuel b ps)⟩

end BTree

namespace Integration

/-- C4: In `runSingleStep(dt)` (for a non-terminated integrator), every active
particle's tentative new position is `x(t) + v(t)*dt + a(t)*dt²/2` with `a(t)`
evaluated at the old position, and after the other-actions hook has possibly
modified the new position the new velocity is
`v(t) + (a(t) + a(t+dt))*dt/2` with `a(t+dt)` re-evaluated at the (possibly
hook-modified) new position. -/
theorem runSingleStep_verlet_formulas (accel : AccelerationFct)
    (other : OtherActionsFct) (dt : ℚ) (s : IntState) (i : Nat) (p : Particle)
    (hi : s.particles[i]? = some p) (hrun : s.runState ≠ RunState.TERMINATED)
    (hact : p.active = true) :
    (runSingleStep accel other dt s).particles[i]? =
      some ((fun aT hooked =>
          { hooked.2 with
            loc := hooked.1
            vel := p.vel + (dt / 2) •
              (aT + accel { hooked.2 with loc := hooked.1 } i (s.time + dt)
                s.timestep) })
        (accel p i s.time s.timestep)
        (other (p.loc + dt • p.vel +
            ((dt * dt) / 2) • accel p i s.time s.timestep)
          p i s.time s.timestep)) := by
  rcases List.getElem?_eq_some.mp hi with ⟨hlt, hget⟩
  unfold runSingleStep
  rw [if_neg hrun]
  have hlt' : i < (s.particles.mapIdx
      (stepParticle accel other s.time s.timestep dt)).length := by
    rw [List.length_mapIdx]; exact hlt
  rw [List.getElem?_eq_getElem hlt']
  have hmap := List.get_mapIdx s.particles
    (stepParticle accel other s.time s.timestep dt) i hlt hlt'
  rw [List.get_eq_getElem, List.get_eq_getElem] at hmap
  rw [hmap, hget]
  simp only [stepParticle, hact, if_pos]

/-- Witness for C4 at a concrete one-particle state, a position-dependent
acceleration function and a position-shifting hook. -/
theorem runSingleStep_verlet_formulas_witness :
    Samples.state0.particles[0]? = some Samples.p1 ∧
    Samples.state0.runState ≠ RunState.TERMINATED ∧
    Samples.p1.active = true ∧
    (runSingleStep Samples.accel Samples.hook 1 Samples.state0).particles[0]? =
      some ((fun aT hooked =>
          { hooked.2 with
            loc := hooked.1
            vel := Samples.p1.vel + ((1 : ℚ) / 2) •
              (aT + Samples.accel { hooked.2 with loc := hooked.1 } 0
                (Samples.state0.time + 1) Samples.state0.timestep) })
        (Samples.accel Samples.p1 0 Samples.state0.time Samples.state0.timestep)
        (Samples.hook (Samples.p1.loc + (1 : ℚ) • Samples.p1.vel +
            (((1 : ℚ) * 1) / 2) • Samples.accel Samples.p1 0
              Samples.state0.time Samples.state0.timestep)
          Samples.p1 0 Samples.state0.time Samples.state0.timestep)) :=
  ⟨rfl, by decide, rfl,
    runSingleStep_verlet_formulas Samples.accel Samples.hook 1 Samples.state0
      0 Samples.p1 rfl (by decide) rfl⟩

/-- One unfolding of the stepping loop. -/
theorem runLoop_succ (accel : AccelerationFct) (other : OtherActionsFct)
    (sig : Nat → Bool) (dt : ℚ) (n : Nat) (s : IntState) :
    runLoop accel other sig dt (n + 1) s =
      if (pollTermination sig s.timestep
            (runSingleStep accel other dt s)).runState =
          RunState.IN_TERMINATION
      then pollTermination sig s.timestep (runSingleStep accel other dt s)
      else runLoop accel other sig dt n
        (pollTermination sig s.timestep (runSingleStep accel other dt s)) :=
  rfl

/-- Behaviour of the stepping loop started in the `RUNNING` state: it executes
some number `j ≤ n` of whole timesteps (at least one when `n ≥ 1`), polls the
termination flag exactly once per completed timestep, never touches the
finalize counter, and — when the external signal is already pending at the
first poll — completes exactly the one in-flight timestep before exiting. -/
theorem runLoop_spec (accel : AccelerationFct) (other : OtherActionsFct)
    (sig : Nat → Bool) (dt : ℚ) :
    ∀ (n : Nat) (s : IntState), s.runState = RunState.RUNNING →
    ∃ j, j ≤ n ∧ (1 ≤ n → 1 ≤ j) ∧
      (runLoop accel other sig dt n s).finalizeCount = s.finalizeCount ∧
      (runLoop accel other sig dt n s).timestep = s.timestep + j ∧
      (runLoop accel other sig dt n s).pollCount = s.pollCount + j ∧
      (sig s.timestep = true → 1 ≤ n → j = 1) := by
  intro n
  induction n with
  | zero =>
      intro s hs
      exact ⟨0, Nat.le_refl 0, by omega, rfl, rfl, rfl, by omega⟩
  | succ n ih =>
      intro s hs
      have hstep : runSingleStep accel other dt s =
          { s with
            particles := s.particles.mapIdx
              (stepParticle accel other s.time s.timestep dt)
            time := s.time + dt
            timestep := s.timestep + 1
            runState := RunState.RUNNING } := by
        rw [runSingleStep, if_neg (by rw [hs]; simp), hs]
        simp
      by_cases hc : (sig s.timestep ||
          allInactive (runSingleStep accel other dt s).particles ||
          (runSingleStep accel other dt s).terminationRequested) = true
      · have h1 : pollTermination sig s.timestep
            (runSingleStep accel other dt s) =
            { runSingleStep accel other dt s with
              pollCount := (runSingleStep accel other dt s).pollCount + 1
              runState := RunState.IN_TERMINATION
              terminationRequested := true } := by
          simp only [pollTermination]
          rw [if_pos hc]
        have h1run : (pollTermination sig s.timestep
            (runSingleStep accel other dt s)).runState =
            RunState.IN_TERMINATION := by
          rw [h1]
        refine ⟨1, by omega, by omega, ?_, ?_, ?_, fun _ _ => rfl⟩ <;>
          rw [runLoop_succ, if_pos h1run, h1, hstep]
      · have h1 : pollTermination sig s.timestep
            (runSingleStep accel other dt s) =
            { runSingleStep accel other dt s with
              pollCount := (runSingleStep accel other dt s).pollCount + 1 } := by
          simp only [pollTermination]
          rw [if_neg hc]
        have h1run : (pollTermination sig s.timestep
            (runSingleStep accel other dt s)).runState =
            RunState.RUNNING := by
          rw [h1, hstep]
        have h1fin : (pollTermination sig s.timestep
            (runSingleStep accel other dt s)).finalizeCount =
            s.finalizeCount := by
          rw [h1, hstep]
        have h1ts : (pollTermination sig s.timestep
            (runSingleStep accel other dt s)).timestep = s.timestep + 1 := by
          rw [h1, hstep]
        have h1pc : (pollTermination sig s.timestep
            (runSingleStep accel other dt s)).pollCount = s.pollCount + 1 := by
          rw [h1, hstep]
        rcases ih (pollTermination sig s.timestep
            (runSingleStep accel other dt s)) h1run with
          ⟨j, hj, _, hfin, hts, hpc, _⟩
        have hsig : sig s.timestep = false := by
          simp only [Bool.or_eq_true, not_or, Bool.not_eq_true] at hc
          exact hc.1.1
        have hnotterm : ¬ (pollTermination sig s.timestep
            (runSingleStep accel other dt s)).runState =
            RunState.IN_TERMINATION := by
          rw [h1run]; simp
        refine ⟨j + 1, by omega, by omega, ?_, ?_, ?_, ?_⟩
        · rw [runLoop_succ, if_neg hnotterm, hfin, h1fin]
        · rw [runLoop_succ, if_neg hnotterm, hts, h1ts]
          omega
        · rw [runLoop_succ, if_neg hnotterm, hpc, h1pc]
          omega
        · intro h
          rw [h] at hsig
          exact absurd hsig (by simp)

/-- C5: Once termination is requested, the in-flight timestep always runs to
completion (the flag is polled exactly once per completed timestep — `j`
steps, `j` polls), `run` exits early (a signal pending at the first poll
yields exactly one completed step), the finalize hook is invoked exactly
once, and `runSingleStep` is not honored once the integrator is
`TERMINATED`. -/
theorem run_completes_steps_then_terminates (accel : AccelerationFct)
    (other : OtherActionsFct) (sig : Nat → Bool) (n : Nat) (dt : ℚ)
    (s : IntState) (hs : s.runState = RunState.RUNNING) :
    (run accel other sig n dt s).finalizeCount = s.finalizeCount + 1 ∧
    (run accel other sig n dt s).runState = RunState.TERMINATED ∧
    (∃ j, j ≤ n ∧ (1 ≤ n → 1 ≤ j) ∧
      (run accel other sig n dt s).timestep = s.timestep + j ∧
      (run accel other sig n dt s).pollCount = s.pollCount + j ∧
      (sig s.timestep = true → 1 ≤ n → j = 1)) ∧
    (∀ s' : IntState, s'.runState = RunState.TERMINATED →
      runSingleStep accel other dt s' = s') := by
  rcases runLoop_spec accel other sig dt n s hs with
    ⟨j, hj, hj1, hfin, hts, hpc, hsigj⟩
  refine ⟨?_, rfl, ⟨j, hj, hj1, ?_, ?_, hsigj⟩, ?_⟩
  · show (runLoop accel other sig dt n s).finalizeCount + 1 =
      s.finalizeCount + 1
    rw [hfin]
  · show (runLoop accel other sig dt n s).timestep = s.timestep + j
    exact hts
  · show (runLoop accel other sig dt n s).pollCount = s.pollCount + j
    exact hpc
  · intro s' h
    rw [runSingleStep, if_pos h]

/-- Witness for C5 at a concrete running state with a signal pending from the
start. -/
theorem run_completes_steps_then_terminates_witness :
    Samples.state0.runState = RunState.RUNNING ∧
    ((run Samples.accel Samples.hook (fun _ => true) 3 1
        Samples.state0).finalizeCount = Samples.state0.finalizeCount + 1 ∧
    (run Samples.accel Samples.hook (fun _ => true) 3 1
        Samples.state0).runState = RunState.TERMINATED ∧
    (∃ j, j ≤ 3 ∧ (1 ≤ 3 → 1 ≤ j) ∧
      (run Samples.accel Samples.hook (fun _ => true) 3 1
        Samples.state0).timestep = Samples.state0.timestep + j ∧
      (run Samples.accel Samples.hook (fun _ => true) 3 1
        Samples.state0).pollCount = Samples.state0.pollCount + j ∧
      ((fun _ : Nat => true) Samples.state0.timestep = true → 1 ≤ 3 →
        j = 1)) ∧
    (∀ s' : IntState, s'.runState = RunState.TERMINATED →
      runSingleStep Samples.accel Samples.hook 1 s' = s')) :=
  ⟨rfl,
    run_completes_steps_then_terminates Samples.accel Samples.hook
      (fun _ => true) 3 1 Samples.state0 rfl⟩

end Integration

namespace QuadSim

/-- C7: An out-of-domain particle position never aborts the run: the
acceleration function catches the out-of-domain failure of the field lookup,
flags the particle invalid and returns the harmless zero acceleration (the
failure is never propagated), and the other-actions hook restarts every
invalid particle at a start-zone position, clearing the invalid flag. -/
theorem out_of_domain_is_not_fatal
    (eFieldRF eFieldEntrance : Vec3 → Except String Vec3)
    (cosVrf vEntrance spaceChargeFactor : ℚ) (scField : Vec3) (p : Particle)
    (maxQLength maxRadiusSq : ℚ) (restartPos newPartPos : Vec3) (msg : String)
    (hout : eFieldRF p.loc = Except.error msg ∨
      eFieldEntrance p.loc = Except.error msg)
    (hinv : p.invalid = true) :
    accelerationFunction eFieldRF eFieldEntrance cosVrf vEntrance
        spaceChargeFactor scField p = (0, p.setInvalid true) ∧
      otherActionsFunction maxQLength maxRadiusSq restartPos newPartPos p =
        (restartPos, p.setInvalid false) := by
  constructor
  · rcases hout with h | h
    · cases he : eFieldEntrance p.loc <;>
        simp [accelerationFunction, h, he]
    · cases hr : eFieldRF p.loc <;>
        simp [accelerationFunction, h, hr]
  · simp [otherActionsFunction, hinv]

/-- Witness for C7 at a field lookup that is everywhere out of domain and a
concrete invalid particle. -/
theorem out_of_domain_is_not_fatal_witness :
    ((fun _ : Vec3 => (Except.error "not in interpolated field" :
        Except String Vec3)) Samples.pInvalid.loc =
      Except.error "not in interpolated field" ∨
    (fun _ : Vec3 => (Except.ok (0 : Vec3) : Except String Vec3))
        Samples.pInvalid.loc =
      Except.error "not in interpolated field") ∧
    Samples.pInvalid.invalid = true ∧
    (accelerationFunction
        (fun _ => Except.error "not in interpolated field")
        (fun _ => Except.ok 0) 2 3 5 ⟨1, 0, 0⟩ Samples.pInvalid =
        (0, Samples.pInvalid.setInvalid true) ∧
      otherActionsFunction 10 100 ⟨7, 0, 0⟩ ⟨0, 0, 0⟩ Samples.pInvalid =
        (⟨7, 0, 0⟩, Samples.pInvalid.setInvalid false)) :=
  ⟨Or.inl rfl, rfl,
    out_of_domain_is_not_fatal
      (fun _ => Except.error "not in interpolated field")
      (fun _ => Except.ok 0) 2 3 5 ⟨1, 0, 0⟩ Samples.pInvalid 10 100
      ⟨7, 0, 0⟩ ⟨0, 0, 0⟩ "not in interpolated field" (Or.inl rfl) rfl⟩

end QuadSim

namespace Core

/-- C8: The productive random generator pool constructs exactly one engine
per available worker thread (`omp_get_max_threads()` many), and
`getThreadRandomSource` returns the engine indexed by the calling thread's
identity at call time: every call from a given thread yields that thread's
engine, and distinct threads obtain distinct engines. -/
theorem pool_one_engine_per_thread (n t t1 t2 : Nat) (ht : t < n)
    (h1 : t1 < n) (h2 : t2 < n) (hne : t1 ≠ t2) :
    (mkRandomGeneratorPool n).elements.length = n ∧
    getThreadRandomSource (mkRandomGeneratorPool n) t = some ⟨t⟩ ∧
    getThreadRandomSource (mkRandomGeneratorPool n) t1 ≠
      getThreadRandomSource (mkRandomGeneratorPool n) t2 := by
  have hget : ∀ m, m < n →
      getThreadRandomSource (mkRandomGeneratorPool n) m = some ⟨m⟩ := by
    intro m hm
    unfold getThreadRandomSource mkRandomGeneratorPool
    rw [List.getElem?_map, List.getElem?_range hm]
    rfl
  refine ⟨by simp [mkRandomGeneratorPool], hget t ht, ?_⟩
  rw [hget t1 h1, hget t2 h2]
  intro hcon
  apply hne
  simpa using hcon

/-- Witness for C8 with two worker threads. -/
theorem pool_one_engine_per_thread_witness :
    ((0 : Nat) < 2 ∧ (0 : Nat) < 2 ∧ (1 : Nat) < 2 ∧ (0 : Nat) ≠ 1) ∧
    ((mkRandomGeneratorPool 2).elements.length = 2 ∧
      getThreadRandomSource (mkRandomGeneratorPool 2) 0 = some ⟨0⟩ ∧
      getThreadRandomSource (mkRandomGeneratorPool 2) 0 ≠
        getThreadRandomSource (mkRandomGeneratorPool 2) 1) :=
  ⟨⟨by decide, by decide, by decide, by decide⟩,
    pool_one_engine_per_thread 2 0 0 1 (by decide) (by decide) (by decide)
      (by decide)⟩

/-- Runs of the single-element test pool with equally many requests produce
identical value sequences and final states, whatever the requesting
threads. -/
theorem testPoolRun_thread_oblivious (bits : List Nat) :
    ∀ (tids1 tids2 : List Nat) (pool : TestRandomGeneratorPool),
      tids1.length = tids2.length →
      testPoolRun bits pool tids1 = testPoolRun bits pool tids2 := by
  intro tids1
  induction tids1 with
  | nil =>
      intro tids2 pool h
      cases tids2 with
      | nil => rfl
      | cons b m => simp at h
  | cons a l ih =>
      intro tids2 pool h
      cases tids2 with
      | nil => simp at h
      | cons b m =>
          simp only [testPoolRun, TestRandomGeneratorPool.getThreadRandomSource]
          rw [ih m ⟨((pool.element.next bits)).2⟩ (by simpa using h)]

/-- C10: The deterministic test pool returns the same single pool element for
every calling thread and every index, so the sequence of generated values is
identical over any two request schedules of equal length, regardless of which
threads (or how many) request randomness. -/
theorem test_pool_is_thread_independent (pool : TestRandomGeneratorPool)
    (bits : List Nat) (tid idx : Nat) (tids1 tids2 : List Nat)
    (hlen : tids1.length = tids2.length) :
    pool.getThreadRandomSource tid = pool.element ∧
    pool.getRandomSource idx = pool.element ∧
    testPoolRun bits pool tids1 = testPoolRun bits pool tids2 :=
  ⟨rfl, rfl, testPoolRun_thread_oblivious bits tids1 tids2 pool hlen⟩

/-- Witness for C10: two schedules of two requests each, issued from
different threads, generate the same values. -/
theorem test_pool_is_thread_independent_witness :
    ([0, 1] : List Nat).length = ([7, 7] : List Nat).length ∧
    (TestRandomGeneratorPool.getThreadRandomSource ⟨⟨0⟩⟩ 4 =
      (⟨⟨0⟩⟩ : TestRandomGeneratorPool).element ∧
    TestRandomGeneratorPool.getRandomSource ⟨⟨0⟩⟩ 9 =
      (⟨⟨0⟩⟩ : TestRandomGeneratorPool).element ∧
    testPoolRun [1, 2, 3] ⟨⟨0⟩⟩ [0, 1] = testPoolRun [1, 2, 3] ⟨⟨0⟩⟩ [7, 7]) :=
  ⟨rfl,
    test_pool_is_thread_independent ⟨⟨0⟩⟩ [1, 2, 3] 4 9 [0, 1] [7, 7] rfl⟩

end Core

namespace Integration

/-- C9: Both `ParallelVerletIntegrator` constructors build the space-charge
tree over the fixed cube with corners `(-1000,-1000,-1000)` and
`(1000,1000,1000)`: whatever the constructor arguments, the domain bounds are
those hard-coded vectors — no parameter can change them. -/
theorem domain_bounds_hard_coded (particles : List Particle)
    (accelF : AccelerationFct) (writeF : TimestepWriteFct)
    (otherF : OtherActionsFct) (monitorF : ParticleStartMonitoringFct)
    (cm : Option CollisionModel) :
    ((mkParallelVerletIntegrator particles accelF writeF otherF monitorF
        cm).locMin = ⟨-1000, -1000, -1000⟩ ∧
      (mkParallelVerletIntegrator particles accelF writeF otherF monitorF
        cm).locMax = ⟨1000, 1000, 1000⟩ ∧
      (mkParallelVerletIntegrator particles accelF writeF otherF monitorF
        cm).treeBounds =
        ⟨⟨-1000, -1000, -1000⟩, ⟨1000, 1000, 1000⟩⟩) ∧
    ((mkParallelVerletIntegratorEmpty accelF writeF otherF monitorF
        cm).locMin = ⟨-1000, -1000, -1000⟩ ∧
      (mkParallelVerletIntegratorEmpty accelF writeF otherF monitorF
        cm).locMax = ⟨1000, 1000, 1000⟩ ∧
      (mkParallelVerletIntegratorEmpty accelF writeF otherF monitorF
        cm).treeBounds =
        ⟨⟨-1000, -1000, -1000⟩, ⟨1000, 1000, 1000⟩⟩) :=
  ⟨⟨rfl, rfl, rfl⟩, ⟨rfl, rfl, rfl⟩⟩

end Integration

end IDSimF
